import Mathlib

/-!
Endfield production planner: core engine, shallow embedding.

A Lean model of the production-planning core of the `endfield-production-planner`
repository, together with proofs about it.  The embedding follows the Rust
sources:

* `src/core/src/planner/calculator.rs`      — `calculate`
* `src/core/src/planner/recipe_selector.rs` — `has_cyclic_inputs`, `select_best_recipe`
* `src/core/src/planner/dependency_resolver.rs` — `resolve`, `build_resolved_node`
* `src/core/src/models/recipe.rs`           — `Recipe`, `compute_unique_id`
* `src/core/src/models/machine.rs`          — `Machine`
* `src/core/src/models/production.rs`       — `ProductionNode` and its aggregations
* `src/core/src/constants.rs`               — `PRODUCTION_TIME_WINDOW`

Modelling conventions:

* Rust `u32` quantities are `Nat`; the saturating casts in the source
  (`.min(u32::MAX as u64) as u32` and float-to-`u32` `as` casts, which saturate)
  are modelled with explicit `min · U32_MAX` and `Int.toNat`.
* Rust `f64` arithmetic is idealised as exact arithmetic on `ℚ`; `f64::ceil`,
  `f64::round` and `f64::clamp` become `Int.ceil`, `round` and `min`/`max`.
  (In the one place where `f64` division by zero could occur — an explicit `0`
  stored in a recipe's `outputs` map — the model's `x / 0 = 0` convention
  differs from IEEE infinities; no theorem below depends on that corner.)
* Rust `HashMap`s that are only read through `get` are modelled as association
  lists read through `List.lookup`; the `inputs`/`outputs` maps of a recipe are
  association lists whose order stands for the map's iteration order.
* The Rust `HashSet<String>` of items currently being resolved is a
  `Finset String`; the mutation of this set by `resolve` (insert on entry,
  remove on exit) is modelled by threading the set through and returning it.
* Rust's recursion in `resolve` is modelled with an explicit fuel parameter;
  running out of fuel yields `none`.  A theorem below shows that fuel
  `card (input_universe cat \ insert item visiting) + 1` always suffices,
  which is the termination argument for the Rust code.
-/

namespace Endfield

/-- Rust `u32::MAX`. -/
def U32_MAX : Nat := 2 ^ 32 - 1

/-- A machine record, `src/core/src/models/machine.rs`. -/
structure Machine where
  id : String
  tier : Nat
  power : Nat
deriving DecidableEq

/-- A recipe record after `normalize`, `src/core/src/models/recipe.rs`.
The Rust field `by` is called `produced_by` here (`by` is a Lean keyword);
`inputs` and `outputs` are the `HashMap<String, u32>` fields as association
lists in iteration order. -/
structure Recipe where
  id : String
  produced_by : String
  time : Nat
  inputs : List (String × Nat)
  outputs : List (String × Nat)
  is_source : Bool
deriving DecidableEq

/-- Method `Recipe::compute_unique_id`, `src/core/src/models/recipe.rs` lines 50–61:
the inputs are sorted by key (Rust `sort_by_key`, a stable sort), rendered as
`k:v` joined by `,`, and wrapped as `id@produced_by[...]`. -/
def compute_unique_id (r : Recipe) : String :=
  let sorted_inputs := r.inputs.mergeSort (fun a b => a.1 ≤ b.1)
  let inputs_str :=
    String.intercalate "," (sorted_inputs.map (fun p => p.1 ++ ":" ++ toString p.2))
  r.id ++ "@" ++ r.produced_by ++ "[" ++ inputs_str ++ "]"

/-- Constant `PRODUCTION_TIME_WINDOW`, `src/core/src/constants.rs`. -/
def PRODUCTION_TIME_WINDOW : ℚ := 60

/-- Result of `calculate`, `src/core/src/planner/calculator.rs` lines 7–17. -/
structure ProductionCalculation where
  required_crafts : ℚ
  machine_count : Nat
  load : ℚ
  power_usage : Nat
deriving DecidableEq

/-- Function `calculate`, `src/core/src/planner/calculator.rs` lines 26–54.
`machine.map(|m| m.power).unwrap_or(0)`, `recipe.outputs.get(item_id).unwrap_or(&1)`,
`required_machines.ceil() as u32` (saturating), the `machine_count > 0` guard for
`load`, and the saturating `u64` multiplication for `power_usage` are all
modelled explicitly. -/
def calculate (recipe : Recipe) (machine : Option Machine) (target_amount : Nat)
    (item_id : String) : ProductionCalculation :=
  let power : Nat := (machine.map Machine.power).getD 0
  let output_per_craft : ℚ := (((recipe.outputs.lookup item_id).getD 1 : Nat) : ℚ)
  let recipe_time : ℚ := (recipe.time : ℚ)
  let required_crafts : ℚ := (target_amount : ℚ) / output_per_craft
  let required_machines : ℚ := recipe_time * required_crafts / PRODUCTION_TIME_WINDOW
  let machine_count : Nat := min ⌈required_machines⌉.toNat U32_MAX
  let load : ℚ := if 0 < machine_count then required_machines / (machine_count : ℚ) else 1
  let power_usage : Nat := min (power * machine_count) U32_MAX
  { required_crafts := required_crafts
    machine_count := machine_count
    load := load
    power_usage := power_usage }

/-- Type `ProductionNode`, `src/core/src/models/production.rs` lines 4–20.
Constructor argument order follows the Rust field order. -/
inductive ProductionNode where
  | Resolved (item_id : String) (machine_id : String) (amount : Nat)
      (machine_count : Nat) (power_usage : Nat) (load : ℚ)
      (inputs : List ProductionNode) (is_source : Bool)
  | Unresolved (item_id : String) (amount : Nat)

/-- Method `ProductionNode::is_leaf`, `src/core/src/models/production.rs` lines 23–28. -/
def is_leaf : ProductionNode → Bool
  | .Resolved _ _ _ _ _ _ inputs _ => inputs.isEmpty
  | .Unresolved _ _ => false

mutual

/-- Method `ProductionNode::total_power`, `src/core/src/models/production.rs`
lines 52–61; the Rust `inputs.iter().map(...).sum()` over the children is the
explicit list recursion `total_power_list`. -/
def total_power : ProductionNode → Nat
  | .Unresolved _ _ => 0
  | .Resolved _ _ _ _ power_usage _ inputs _ => power_usage + total_power_list inputs

/-- Sum of `total_power` over a list of children. -/
def total_power_list : List ProductionNode → Nat
  | [] => 0
  | c :: cs => total_power c + total_power_list cs

end

/-- Method `ProductionNode::total_power_exclude_source`, `src/core/src/models/production.rs`
lines 63–75: the `is_source` guard applies to the node itself only, and the
children are summed with plain `total_power`. -/
def total_power_exclude_source : ProductionNode → Nat
  | .Resolved _ _ _ _ power_usage _ inputs is_source =>
      if is_source then 0 else power_usage + total_power_list inputs
  | .Unresolved _ _ => 0

mutual

/-- Method `ProductionNode::total_utilization`, `src/core/src/models/production.rs`
lines 36–50; the product over children is the explicit list recursion
`total_utilization_prod`. -/
def total_utilization : ProductionNode → ℚ
  | .Resolved _ _ _ _ _ load inputs _ =>
      if inputs.isEmpty then load else load * total_utilization_prod inputs
  | .Unresolved _ _ => 0

/-- Product of `total_utilization` over a list of children. -/
def total_utilization_prod : List ProductionNode → ℚ
  | [] => 1
  | c :: cs => total_utilization c * total_utilization_prod cs

end

/-- Method `ProductionNode::utilization`, `src/core/src/models/production.rs` lines
30–34: `(total_utilization * 100.0).round().clamp(0.0, 100.0) as u32`.  Rust's
round-half-away-from-zero and Lean's `round` agree after the clamp to
`[0, 100]`. -/
def utilization (n : ProductionNode) : Nat :=
  (min 100 (max 0 (round (total_utilization n * 100)))).toNat

mutual

/-- All nodes of a production tree, the tree itself included (the traversal
order of `collect_totals_recursive`, `src/core/src/models/production.rs`
lines 126–139). -/
def all_nodes : ProductionNode → List ProductionNode
  | .Resolved item_id machine_id amount machine_count power_usage load inputs is_source =>
      .Resolved item_id machine_id amount machine_count power_usage load inputs is_source
        :: all_nodes_list inputs
  | .Unresolved item_id amount => [.Unresolved item_id amount]

/-- Concatenation of `all_nodes` over a list of children. -/
def all_nodes_list : List ProductionNode → List ProductionNode
  | [] => []
  | c :: cs => all_nodes c ++ all_nodes_list cs

end

mutual

/-- The value at key `k` of the map built by `ProductionNode::total_machines`
(`src/core/src/models/production.rs` lines 92–101): every `Resolved` node with
a non-empty `machine_id` equal to `k` contributes its `machine_count`; a key
absent from the Rust `HashMap` reads as `0` here. -/
def total_machines_count (k : String) : ProductionNode → Nat
  | .Resolved _ machine_id _ machine_count _ _ inputs _ =>
      (if machine_id ≠ "" ∧ machine_id = k then machine_count else 0)
        + total_machines_count_list k inputs
  | .Unresolved _ _ => 0

/-- Sum of `total_machines_count k` over a list of children. -/
def total_machines_count_list (k : String) : List ProductionNode → Nat
  | [] => 0
  | c :: cs => total_machines_count k c + total_machines_count_list k cs

end

/-- The `item_id` of a node (both variants carry one). -/
def node_item : ProductionNode → String
  | .Resolved item_id _ _ _ _ _ _ _ => item_id
  | .Unresolved item_id _ => item_id

/-- The children of a node (`[]` for `Unresolved`). -/
def node_children : ProductionNode → List ProductionNode
  | .Resolved _ _ _ _ _ _ inputs _ => inputs
  | .Unresolved _ _ => []

/-- Whether a node is the `Resolved` variant. -/
def is_resolved : ProductionNode → Bool
  | .Resolved _ _ _ _ _ _ _ _ => true
  | .Unresolved _ _ => false

/-- The `machine_id` of a `Resolved` node. -/
def node_machine_id : ProductionNode → Option String
  | .Resolved _ machine_id _ _ _ _ _ _ => some machine_id
  | .Unresolved _ _ => none

/-- The `machine_count` of a `Resolved` node (`0` for `Unresolved`). -/
def node_machine_count : ProductionNode → Nat
  | .Resolved _ _ _ machine_count _ _ _ _ => machine_count
  | .Unresolved _ _ => 0

/-- The `power_usage` of a `Resolved` node (`0` for `Unresolved`). -/
def resolved_power : ProductionNode → Nat
  | .Resolved _ _ _ _ power_usage _ _ _ => power_usage
  | .Unresolved _ _ => 0

/-- The `power_usage` of a `Resolved` node not flagged `is_source`
(`0` for source-flagged and `Unresolved` nodes).  This is the spec's reading
of which nodes `total_power_exclude_source` should count. -/
def non_source_power : ProductionNode → Nat
  | .Resolved _ _ _ _ power_usage _ _ is_source => if is_source then 0 else power_usage
  | .Unresolved _ _ => 0

/-- The `is_source` flag of the root (`false` for `Unresolved`). -/
def root_is_source : ProductionNode → Bool
  | .Resolved _ _ _ _ _ _ _ is_source => is_source
  | .Unresolved _ _ => false

/-- Function `has_cyclic_inputs`, `src/core/src/planner/recipe_selector.rs` lines 6–11:
does any input id of the recipe lie in the visiting set? -/
def has_cyclic_inputs (recipe : Recipe) (visiting : Finset String) : Bool :=
  recipe.inputs.any (fun p => decide (p.1 ∈ visiting))

/-- Rust `machines.get(&recipe.by).map(|m| m.tier).unwrap_or(0)`. -/
def machine_tier (machines : List (String × Machine)) (r : Recipe) : Nat :=
  ((machines.lookup r.produced_by).map Machine.tier).getD 0

/-- Rust `machines.get(&recipe.by).map(|m| m.power).unwrap_or(0)`. -/
def machine_power (machines : List (String × Machine)) (r : Recipe) : Nat :=
  ((machines.lookup r.produced_by).map Machine.power).getD 0

/-- Rust `Ord::cmp` on `u32`. -/
def cmpNat (a b : Nat) : Ordering :=
  if a < b then .lt else if b < a then .gt else .eq

/-- Rust `Ord::cmp` on `bool` (`false < true`). -/
def cmpBool (a b : Bool) : Ordering :=
  cmpNat (cond a 1 0) (cond b 1 0)

/-- Code-point comparison of two character lists, the recursive core of Rust
`Ord::cmp` on `String`. -/
def cmpCharList : List Char → List Char → Ordering
  | [], [] => .eq
  | [], _ :: _ => .lt
  | _ :: _, [] => .gt
  | a :: as, b :: bs => (cmpNat a.toNat b.toNat).then (cmpCharList as bs)

/-- Rust `Ord::cmp` on `String`: byte-wise lexicographic comparison, which on
UTF-8 strings coincides with code-point lexicographic comparison of the
character lists. -/
def cmpString (a b : String) : Ordering := cmpCharList a.data b.data

/-- The comparator closure inside `select_best_recipe`,
`src/core/src/planner/recipe_selector.rs` lines 32–51:
`cyclic_b.cmp(&cyclic_a)` then `is_source_a.cmp(&is_source_b)` then
`tier_a.cmp(&tier_b)` then `power_b.cmp(&power_a)` then `id_a.cmp(&id_b)`. -/
def compare_recipes (machines : List (String × Machine)) (visiting : Finset String)
    (recipe_a recipe_b : Recipe) : Ordering :=
  (cmpBool (has_cyclic_inputs recipe_b visiting) (has_cyclic_inputs recipe_a visiting)).then
    ((cmpBool recipe_a.is_source recipe_b.is_source).then
      ((cmpNat (machine_tier machines recipe_a) (machine_tier machines recipe_b)).then
        ((cmpNat (machine_power machines recipe_b) (machine_power machines recipe_a)).then
          (cmpString recipe_a.id recipe_b.id))))

/-- One folding step of Rust `Iterator::max_by`: keep the accumulator only
when it compares strictly greater than the next element (so the later element
wins ties, as `max_by` documents). -/
def max_by_step {α : Type} (cmp : α → α → Ordering) (acc : Option α) (x : α) : Option α :=
  match acc with
  | none => some x
  | some a => if cmp a x = .gt then some a else some x

/-- Rust `Iterator::max_by`: the maximum under the comparator, the later
element winning ties; `none` on the empty iterator. -/
def max_by {α : Type} (cmp : α → α → Ordering) (l : List α) : Option α :=
  l.foldl (max_by_step cmp) none

/-- The lookup tables built by the loader (`GameData`,
`src/core/src/config/loader.rs` lines 16–20), as association lists. -/
structure Catalog where
  recipes : List (String × Recipe)
  recipes_by_output : List (String × List String)
  machines : List (String × Machine)

/-- Function `select_best_recipe`, `src/core/src/planner/recipe_selector.rs` lines 21–53:
look up the candidate ids for the item, resolve each through the recipe table
(`filter_map`), and take the comparator maximum. -/
def select_best_recipe (cat : Catalog) (item_id : String) (visiting : Finset String) :
    Option Recipe :=
  (cat.recipes_by_output.lookup item_id).bind fun candidates =>
    max_by (compare_recipes cat.machines visiting)
      (candidates.filterMap (fun id => cat.recipes.lookup id))

/-- Rust `(*input_count as f64 * calc.required_crafts).ceil() as u32`
(`src/core/src/planner/dependency_resolver.rs` line 86, saturating cast). -/
def child_amount (input_count : Nat) (required_crafts : ℚ) : Nat :=
  min ⌈(input_count : ℚ) * required_crafts⌉.toNat U32_MAX

/-- The loop over `recipe.inputs` in `build_resolved_node`
(`src/core/src/planner/dependency_resolver.rs` lines 77–97): inputs already in
the visiting set are skipped; for the rest the resolver `res` runs with the
current visiting set, which it threads onward.  `none` propagates fuel
exhaustion from `res`. -/
def resolve_children
    (res : String → Nat → Finset String → Option (ProductionNode × Finset String))
    (required_crafts : ℚ) :
    List (String × Nat) → Finset String → Option (List ProductionNode × Finset String)
  | [], visiting => some ([], visiting)
  | (input_id, input_count) :: rest, visiting =>
    if input_id ∈ visiting then
      resolve_children res required_crafts rest visiting
    else
      match res input_id (child_amount input_count required_crafts) visiting with
      | none => none
      | some (child, visiting') =>
        match resolve_children res required_crafts rest visiting' with
        | none => none
        | some (children, visiting'') => some (child :: children, visiting'')

/-- Functions `resolve` and `build_resolved_node`,
`src/core/src/planner/dependency_resolver.rs` lines 21–109, with an explicit
fuel parameter for the Rust recursion.  On entry the item is inserted into the
visiting set, a recipe is selected against that set; with no recipe the result
is `Unresolved`, otherwise the machine (or the `"missing_machine"` sentinel),
the calculation and the children are assembled; on exit the item is removed
from the visiting set, which is returned alongside the node. -/
def resolve (cat : Catalog) : Nat → String → Nat → Finset String →
    Option (ProductionNode × Finset String)
  | 0 => fun _ _ _ => none
  | fuel + 1 => fun item_id amount visiting =>
    let visiting1 := insert item_id visiting
    match select_best_recipe cat item_id visiting1 with
    | none => some (.Unresolved item_id amount, visiting1.erase item_id)
    | some recipe =>
      let machine := cat.machines.lookup recipe.produced_by
      let machine_id := (machine.map Machine.id).getD "missing_machine"
      let pc := calculate recipe machine amount item_id
      match resolve_children (resolve cat fuel) pc.required_crafts recipe.inputs visiting1 with
      | none => none
      | some (children, visiting2) =>
        some (.Resolved item_id machine_id amount pc.machine_count pc.power_usage
                pc.load children recipe.is_source,
              visiting2.erase item_id)

/-- All item ids occurring as an input of some recipe of the catalog; the
recursion of `resolve` only ever descends into members of this finite set,
which is what bounds its depth. -/
def input_universe (cat : Catalog) : Finset String :=
  ((cat.recipes.map (fun p => p.2.inputs.map Prod.fst)).flatten).toFinset

/-! ## Small facts about the comparator building blocks -/

theorem cmpNat_self (a : Nat) : cmpNat a a = .eq := by
  simp [cmpNat]

theorem cmpNat_gt {a b : Nat} (h : b < a) : cmpNat a b = .gt := by
  simp only [cmpNat]
  rw [if_neg (by omega), if_pos h]

theorem cmpNat_lt {a b : Nat} (h : a < b) : cmpNat a b = .lt := by
  simp only [cmpNat]
  rw [if_pos h]

theorem cmpBool_self (a : Bool) : cmpBool a a = .eq := by
  cases a <;> simp [cmpBool, cmpNat]

theorem cmpBool_false_true : cmpBool false true = .lt := by
  simp [cmpBool, cmpNat]

theorem cmpBool_true_false : cmpBool true false = .gt := by
  simp [cmpBool, cmpNat]

theorem cmpCharList_lt {x y : List Char} (h : List.Lex (· < ·) x y) :
    cmpCharList x y = .lt := by
  induction h with
  | nil => rfl
  | rel hab =>
    rename_i a as b bs
    have hn : a.toNat < b.toNat := Char.lt_def.mp hab
    rw [cmpCharList, cmpNat_lt hn]
    rfl
  | cons h ih =>
    rename_i a as bs
    rw [cmpCharList, cmpNat_self]
    exact ih

theorem cmpCharList_gt {x y : List Char} (h : List.Lex (· < ·) y x) :
    cmpCharList x y = .gt := by
  induction x generalizing y with
  | nil => cases h
  | cons a as ih =>
    cases h with
    | nil => rfl
    | rel hab =>
      rename_i b bs
      have hn : b.toNat < a.toNat := Char.lt_def.mp hab
      rw [cmpCharList, cmpNat_gt hn]
      rfl
    | cons h =>
      rw [cmpCharList, cmpNat_self]
      exact ih h

theorem cmpString_gt {a b : String} (h : b < a) : cmpString a b = .gt :=
  cmpCharList_gt (show List.Lex (· < ·) b.data a.data from String.lt_iff_toList_lt.mp h)

theorem cmpString_lt {a b : String} (h : a < b) : cmpString a b = .lt :=
  cmpCharList_lt (show List.Lex (· < ·) a.data b.data from String.lt_iff_toList_lt.mp h)

theorem ordering_eq_then (o : Ordering) : Ordering.eq.then o = o := rfl

theorem ordering_gt_then (o : Ordering) : Ordering.gt.then o = .gt := rfl

theorem ordering_lt_then (o : Ordering) : Ordering.lt.then o = .lt := rfl

/-! ## Facts about `max_by` -/

theorem max_by_pair {α : Type} (cmp : α → α → Ordering) (a b : α) :
    max_by cmp [a, b] = if cmp a b = .gt then some a else some b := rfl

theorem max_by_foldl_mem {α : Type} (cmp : α → α → Ordering) :
    ∀ (l : List α) (acc : Option α) (r : α),
      l.foldl (max_by_step cmp) acc = some r → acc = some r ∨ r ∈ l := by
  intro l
  induction l with
  | nil => intro acc r h; exact Or.inl h
  | cons x xs ih =>
    intro acc r h
    rcases ih (max_by_step cmp acc x) r h with h1 | h1
    · cases acc with
      | none =>
        simp only [max_by_step] at h1
        injection h1 with h1
        right
        simp [h1]
      | some a =>
        simp only [max_by_step] at h1
        by_cases hc : cmp a x = .gt
        · rw [if_pos hc] at h1
          exact Or.inl h1
        · rw [if_neg hc] at h1
          injection h1 with h1
          right
          simp [h1]
    · right
      exact List.mem_cons_of_mem _ h1

theorem max_by_mem {α : Type} {cmp : α → α → Ordering} {l : List α} {r : α}
    (h : max_by cmp l = some r) : r ∈ l := by
  rcases max_by_foldl_mem cmp l none r h with h1 | h1
  · cases h1
  · exact h1

theorem max_by_foldl_isSome {α : Type} (cmp : α → α → Ordering) :
    ∀ (l : List α) (a : α), (l.foldl (max_by_step cmp) (some a)).isSome := by
  intro l
  induction l with
  | nil => intro a; rfl
  | cons x xs ih =>
    intro a
    simp only [List.foldl_cons, max_by_step]
    by_cases hc : cmp a x = .gt
    · rw [if_pos hc]; exact ih a
    · rw [if_neg hc]; exact ih x

theorem max_by_isSome {α : Type} (cmp : α → α → Ordering) (l : List α) (h : l ≠ []) :
    (max_by cmp l).isSome := by
  cases l with
  | nil => exact absurd rfl h
  | cons x xs =>
    show (List.foldl (max_by_step cmp) (max_by_step cmp none x) xs).isSome
    exact max_by_foldl_isSome cmp xs x

/-! ## Facts about association-list lookup -/

theorem lookup_mem {β : Type} {l : List (String × β)} {k : String} {v : β}
    (h : l.lookup k = some v) : (k, v) ∈ l := by
  rw [List.lookup_eq_some_iff] at h
  obtain ⟨l₁, l₂, rfl, -⟩ := h
  simp

/-! ## Selecting among a two-candidate list -/

/-- If the comparator ranks `a` strictly above `b`, `select_best_recipe`
returns `a` whichever order the two candidates come in. -/
theorem select_pair {cat : Catalog} {item_id : String} {visiting : Finset String}
    {a b : Recipe} {ids : List String}
    (hids : cat.recipes_by_output.lookup item_id = some ids)
    (hfm : ids.filterMap (fun id => cat.recipes.lookup id) = [a, b] ∨
           ids.filterMap (fun id => cat.recipes.lookup id) = [b, a])
    (h1 : compare_recipes cat.machines visiting a b = .gt)
    (h2 : compare_recipes cat.machines visiting b a ≠ .gt) :
    select_best_recipe cat item_id visiting = some a := by
  unfold select_best_recipe
  rw [hids]
  rcases hfm with hfm | hfm <;> simp only [Option.some_bind] <;> rw [hfm, max_by_pair]
  · rw [if_pos h1]
  · rw [if_neg h2]

/-! ## C1 and C2: the quantity calculator -/

/-- C1, counterexample.  The claim states `machine_count =
ceil(cycle_time * (target_amount / output_per_craft) / 60)` for *every*
non-negative `target_amount`.  The Rust cast `required_machines.ceil() as u32`
saturates at `u32::MAX`: with `cycle_time = 120` and
`target_amount = 4294967295` the exact ceiling is `8589934590`, but
`calculate` returns `machine_count = 4294967295`. -/
theorem c1_counterexample :
    ((calculate ⟨"x", "m", 120, [], [], false⟩ none 4294967295 "x").machine_count : ℤ)
      ≠ ⌈(120 : ℚ) * ((4294967295 : ℚ) / (((1 : Nat) : ℚ))) / 60⌉ := by
  have hc : ⌈(120 : ℚ) * ((4294967295 : ℚ) / (((1 : Nat) : ℚ))) / 60⌉ = 8589934590 := by
    norm_num
  rw [hc]
  simp only [calculate, PRODUCTION_TIME_WINDOW, U32_MAX]
  norm_num

/-- C1, amended.  In exact arithmetic, `machine_count` equals
`ceil(cycle_time * (target_amount / output_per_craft) / 60)` whenever that
ceiling fits in a `u32` (the Rust cast saturates at `u32::MAX` otherwise,
see `c1_counterexample`); `output_per_craft` is the quantity of the item in
`recipe.outputs`, defaulting to `1` when absent.  The concrete scenario of the
claim holds on the nose: cycle time 2, one output per cycle, machine power 5,
`target_amount = 31` gives `required_crafts = 31`, `machine_count = 2`,
`load = (31/30)/2 = 31/60` and `power_usage = 10`. -/
theorem c1_machine_count (recipe : Recipe) (machine : Option Machine)
    (target_amount : Nat) (item_id : String)
    (h : (⌈(recipe.time : ℚ) * ((target_amount : ℚ) /
            (((recipe.outputs.lookup item_id).getD 1 : Nat) : ℚ)) / 60⌉).toNat ≤ U32_MAX) :
    (calculate recipe machine target_amount item_id).machine_count
      = (⌈(recipe.time : ℚ) * ((target_amount : ℚ) /
            (((recipe.outputs.lookup item_id).getD 1 : Nat) : ℚ)) / 60⌉).toNat
    ∧ calculate ⟨"R1", "M", 2, [], [("X", 1)], false⟩ (some ⟨"M", 1, 5⟩) 31 "X"
        = ⟨31, 2, 31 / 60, 10⟩ := by
  constructor
  · simp only [calculate, PRODUCTION_TIME_WINDOW]
    exact min_eq_left h
  · have hceil : (⌈(31 : ℚ) / 30⌉ : ℤ) = 2 := by
      rw [Int.ceil_eq_iff]
      norm_num
    have htn : (⌈(31 : ℚ) / 30⌉).toNat = 2 := by
      rw [hceil]
      rfl
    simp only [calculate, PRODUCTION_TIME_WINDOW, List.lookup_cons_self, Option.getD_some,
      ProductionCalculation.mk.injEq]
    rw [show ((⟨"R1", "M", 2, [], [("X", 1)], false⟩ : Recipe).time : ℚ) *
          (((31 : Nat) : ℚ) / (((1 : Nat) : ℚ))) / 60 = 31 / 30 by norm_num]
    rw [htn]
    norm_num [U32_MAX]

/-- C1, witness, for the amended theorem, at the claim's own scenario. -/
theorem c1_witness :
    (calculate ⟨"R1", "M", 2, [], [("X", 1)], false⟩ (some ⟨"M", 1, 5⟩) 31 "X").machine_count
      = (⌈((⟨"R1", "M", 2, [], [("X", 1)], false⟩ : Recipe).time : ℚ) * ((31 : ℚ) /
            ((((⟨"R1", "M", 2, [], [("X", 1)], false⟩ : Recipe).outputs.lookup "X").getD 1 : Nat) : ℚ)) / 60⌉).toNat := by
  exact (c1_machine_count ⟨"R1", "M", 2, [], [("X", 1)], false⟩ (some ⟨"M", 1, 5⟩) 31 "X"
    (by
      have hceil : (⌈(31 : ℚ) / 30⌉ : ℤ) = 2 := by
        rw [Int.ceil_eq_iff]
        norm_num
      have htn : (⌈(31 : ℚ) / 30⌉).toNat = 2 := by
        rw [hceil]
        rfl
      norm_num [U32_MAX, List.lookup_cons_self, htn])).1

/-- C2.  Whenever `calculate` returns `machine_count = 0` it returns
`load = 1`: the division defining `load` happens only under the
`machine_count > 0` guard, so no division by zero is performed.  (In the
model, `calculate` is a total function by construction, matching the claim
that it never errors for any non-negative `target_amount`.) -/
theorem c2_zero_machines_load_one (recipe : Recipe) (machine : Option Machine)
    (target_amount : Nat) (item_id : String)
    (h : (calculate recipe machine target_amount item_id).machine_count = 0) :
    (calculate recipe machine target_amount item_id).load = 1 := by
  simp only [calculate] at h ⊢
  rw [h]
  simp

/-- C2, witness: a zero-time recipe yields `machine_count = 0` and the
sentinel `load = 1` (the `test_zero_time_recipe` scenario from the Rust
tests). -/
theorem c2_witness :
    (calculate ⟨"refining_unit", "hand", 0, [], [("refining_unit", 1)], false⟩
        (some ⟨"hand", 0, 0⟩) 10 "refining_unit").load = 1 := by
  apply c2_zero_machines_load_one
  simp only [calculate, PRODUCTION_TIME_WINDOW, List.lookup_cons_self, Option.getD_some]
  norm_num

/-! ## C3 and C4: the recipe selector -/

/-- C3, counterexample.  Two candidates that tie on acyclicity,
`is_source`, machine tier and power but have recipe ids `"a"` and `"b"`:
the comparator's final clause is `recipe_a.id.cmp(&recipe_b.id)` inside
`max_by`, so the lexicographically *larger* id `"b"` is chosen, not the
smaller id `"a"` the claim states. -/
theorem c3_counterexample :
    select_best_recipe
        ⟨[("ka", ⟨"a", "m", 60, [], [("x", 1)], false⟩),
          ("kb", ⟨"b", "m", 60, [], [("x", 1)], false⟩)],
         [("x", ["ka", "kb"])],
         [("m", ⟨"m", 1, 5⟩)]⟩ "x" ∅
      = some ⟨"b", "m", 60, [], [("x", 1)], false⟩
    ∧ select_best_recipe
        ⟨[("ka", ⟨"a", "m", 60, [], [("x", 1)], false⟩),
          ("kb", ⟨"b", "m", 60, [], [("x", 1)], false⟩)],
         [("x", ["ka", "kb"])],
         [("m", ⟨"m", 1, 5⟩)]⟩ "x" ∅
      ≠ some ⟨"a", "m", 60, [], [("x", 1)], false⟩ := by
  have h : select_best_recipe
        ⟨[("ka", ⟨"a", "m", 60, [], [("x", 1)], false⟩),
          ("kb", ⟨"b", "m", 60, [], [("x", 1)], false⟩)],
         [("x", ["ka", "kb"])],
         [("m", ⟨"m", 1, 5⟩)]⟩ "x" ∅
      = some ⟨"b", "m", 60, [], [("x", 1)], false⟩ := rfl
  refine ⟨h, ?_⟩
  rw [h]
  intro hcontra
  injection hcontra with hcontra
  exact absurd (congrArg Recipe.id hcontra) (by simp)

/-- C3, amended.  For two candidates for the same item with equal acyclic
status and equal `is_source` (the candidate list resolving to exactly those
two recipes, in either order): the recipe whose machine has the higher tier is
chosen (missing machine counts as tier 0); with equal tier, the recipe whose
machine has lower power is chosen (missing machine counts as power 0); and
with equal tier and power, the candidate with the lexicographically *larger*
recipe id is chosen. -/
theorem c3_selector_priority (cat : Catalog) (item_id : String)
    (visiting : Finset String) (a b : Recipe) (ids : List String)
    (hids : cat.recipes_by_output.lookup item_id = some ids)
    (hfm : ids.filterMap (fun id => cat.recipes.lookup id) = [a, b] ∨
           ids.filterMap (fun id => cat.recipes.lookup id) = [b, a])
    (hcyc : has_cyclic_inputs a visiting = has_cyclic_inputs b visiting)
    (hsrc : a.is_source = b.is_source) :
    (machine_tier cat.machines b < machine_tier cat.machines a →
      select_best_recipe cat item_id visiting = some a)
    ∧ (machine_tier cat.machines a = machine_tier cat.machines b →
       machine_power cat.machines a < machine_power cat.machines b →
       select_best_recipe cat item_id visiting = some a)
    ∧ (machine_tier cat.machines a = machine_tier cat.machines b →
       machine_power cat.machines a = machine_power cat.machines b →
       b.id < a.id →
       select_best_recipe cat item_id visiting = some a) := by
  refine ⟨fun htier => ?_, fun htier hpow => ?_, fun htier hpow hid => ?_⟩
  · refine select_pair hids hfm ?_ ?_
    · rw [compare_recipes, hcyc, cmpBool_self, ordering_eq_then, hsrc, cmpBool_self,
        ordering_eq_then, cmpNat_gt htier, ordering_gt_then]
    · rw [compare_recipes, hcyc, cmpBool_self, ordering_eq_then, hsrc, cmpBool_self,
        ordering_eq_then, cmpNat_lt htier, ordering_lt_then]
      exact fun hcontra => Ordering.noConfusion hcontra
  · refine select_pair hids hfm ?_ ?_
    · rw [compare_recipes, hcyc, cmpBool_self, ordering_eq_then, hsrc, cmpBool_self,
        ordering_eq_then, htier, cmpNat_self, ordering_eq_then, cmpNat_gt hpow,
        ordering_gt_then]
    · rw [compare_recipes, hcyc, cmpBool_self, ordering_eq_then, hsrc, cmpBool_self,
        ordering_eq_then, htier, cmpNat_self, ordering_eq_then, cmpNat_lt hpow,
        ordering_lt_then]
      exact fun hcontra => Ordering.noConfusion hcontra
  · refine select_pair hids hfm ?_ ?_
    · rw [compare_recipes, hcyc, cmpBool_self, ordering_eq_then, hsrc, cmpBool_self,
        ordering_eq_then, htier, cmpNat_self, ordering_eq_then, hpow, cmpNat_self,
        ordering_eq_then]
      exact cmpString_gt hid
    · rw [compare_recipes, hcyc.symm, cmpBool_self, ordering_eq_then, hsrc.symm,
        cmpBool_self, ordering_eq_then, htier.symm, cmpNat_self, ordering_eq_then,
        hpow.symm, cmpNat_self, ordering_eq_then, cmpString_lt hid]
      exact fun hcontra => Ordering.noConfusion hcontra

/-- C3, witness, for the amended theorem: with equal tier and power and ids
`"a"` versus `"b"`, the candidate with the larger id `"b"` is selected. -/
theorem c3_witness :
    select_best_recipe
        ⟨[("ka", ⟨"a", "m", 60, [], [("x", 1)], false⟩),
          ("kb", ⟨"b", "m", 60, [], [("x", 1)], false⟩)],
         [("x", ["ka", "kb"])],
         [("m", ⟨"m", 1, 5⟩)]⟩ "x" ∅
      = some ⟨"b", "m", 60, [], [("x", 1)], false⟩ := by
  exact (c3_selector_priority
      ⟨[("ka", ⟨"a", "m", 60, [], [("x", 1)], false⟩),
        ("kb", ⟨"b", "m", 60, [], [("x", 1)], false⟩)],
       [("x", ["ka", "kb"])],
       [("m", ⟨"m", 1, 5⟩)]⟩ "x" ∅ ⟨"b", "m", 60, [], [("x", 1)], false⟩
      ⟨"a", "m", 60, [], [("x", 1)], false⟩ ["ka", "kb"] rfl
      (Or.inr (by decide)) rfl rfl).2.2 rfl rfl
      (String.lt_iff_toList_lt.mpr (List.Lex.rel (by decide)))

/-- C4.  First conjunct: an acyclic candidate (no input id in the visiting
set) beats a cyclic one regardless of `is_source`, tier or power — the
comparator tests `cyclic_b.cmp(&cyclic_a)` before everything else.  Second
conjunct: when the candidate list is non-empty — in particular when every
candidate is cyclic — `select_best_recipe` still returns some candidate. -/
theorem c4_acyclic_preferred :
    (∀ (cat : Catalog) (item_id : String) (visiting : Finset String)
       (a b : Recipe) (ids : List String),
        cat.recipes_by_output.lookup item_id = some ids →
        (ids.filterMap (fun id => cat.recipes.lookup id) = [a, b] ∨
         ids.filterMap (fun id => cat.recipes.lookup id) = [b, a]) →
        has_cyclic_inputs a visiting = false →
        has_cyclic_inputs b visiting = true →
        select_best_recipe cat item_id visiting = some a)
    ∧ (∀ (cat : Catalog) (item_id : String) (visiting : Finset String)
         (ids : List String),
        cat.recipes_by_output.lookup item_id = some ids →
        ids.filterMap (fun id => cat.recipes.lookup id) ≠ [] →
        (select_best_recipe cat item_id visiting).isSome) := by
  constructor
  · intro cat item_id visiting a b ids hids hfm hca hcb
    refine select_pair hids hfm ?_ ?_
    · rw [compare_recipes, hca, hcb, cmpBool_true_false, ordering_gt_then]
    · rw [compare_recipes, hca, hcb, cmpBool_false_true, ordering_lt_then]
      exact fun hcontra => Ordering.noConfusion hcontra
  · intro cat item_id visiting ids hids hne
    unfold select_best_recipe
    rw [hids]
    simp only [Option.some_bind]
    exact max_by_isSome _ _ hne

/-- C4, witness: the acyclic candidate wins even against a higher-tier,
source-flagged cyclic candidate, and a singleton all-cyclic candidate list
still yields a selection. -/
theorem c4_witness :
    select_best_recipe
        ⟨[("kc", ⟨"x", "m2", 60, [("loop", 1)], [("x", 1)], true⟩),
          ("kd", ⟨"x", "m", 60, [("ore", 1)], [("x", 1)], false⟩)],
         [("x", ["kc", "kd"])],
         [("m", ⟨"m", 1, 5⟩), ("m2", ⟨"m2", 9, 1⟩)]⟩ "x" {"loop"}
      = some ⟨"x", "m", 60, [("ore", 1)], [("x", 1)], false⟩ := by
  exact c4_acyclic_preferred.1 _ "x" {"loop"}
    ⟨"x", "m", 60, [("ore", 1)], [("x", 1)], false⟩
    ⟨"x", "m2", 60, [("loop", 1)], [("x", 1)], true⟩ ["kc", "kd"] rfl
    (Or.inr (by decide)) (by decide) (by decide)

/-! ## Facts about the dependency resolver -/

/-- A selected recipe is a value of the recipe table. -/
theorem select_best_recipe_mem {cat : Catalog} {item_id : String}
    {visiting : Finset String} {r : Recipe}
    (h : select_best_recipe cat item_id visiting = some r) :
    ∃ k, (k, r) ∈ cat.recipes := by
  unfold select_best_recipe at h
  cases hids : cat.recipes_by_output.lookup item_id with
  | none => rw [hids] at h; cases h
  | some ids =>
    rw [hids] at h
    simp only [Option.some_bind] at h
    have hmem := max_by_mem h
    rw [List.mem_filterMap] at hmem
    obtain ⟨id, -, hl⟩ := hmem
    exact ⟨id, lookup_mem hl⟩

/-- Every input id of a catalog recipe lies in `input_universe`. -/
theorem input_universe_mem {cat : Catalog} {k : String} {r : Recipe}
    (hmem : (k, r) ∈ cat.recipes) {p : String × Nat} (hp : p ∈ r.inputs) :
    p.1 ∈ input_universe cat := by
  unfold input_universe
  rw [List.mem_toFinset, List.mem_flatten]
  refine ⟨r.inputs.map Prod.fst, ?_, ?_⟩
  · rw [List.mem_map]
    exact ⟨(k, r), hmem, rfl⟩
  · rw [List.mem_map]
    exact ⟨p, hp, rfl⟩

/-- If the resolver restores the visiting set (minus the resolved item), so
does the traversal of a child list: every child it actually descends into is
not yet being visited, so the child's resolution leaves the set unchanged. -/
theorem resolve_children_visiting
    {res : String → Nat → Finset String → Option (ProductionNode × Finset String)}
    (hres : ∀ i a v n v', i ∉ v → res i a v = some (n, v') → v' = v) :
    ∀ (l : List (String × Nat)) (crafts : ℚ) (v : Finset String)
      (cs : List ProductionNode) (v' : Finset String),
      resolve_children res crafts l v = some (cs, v') → v' = v := by
  intro l
  induction l with
  | nil =>
    intro crafts v cs v' h
    simp only [resolve_children, Option.some.injEq, Prod.mk.injEq] at h
    exact h.2.symm
  | cons p rest ih =>
    intro crafts v cs v' h
    obtain ⟨i, q⟩ := p
    simp only [resolve_children] at h
    by_cases hi : i ∈ v
    · rw [if_pos hi] at h
      exact ih crafts v cs v' h
    · rw [if_neg hi] at h
      cases hr : res i (child_amount q crafts) v with
      | none =>
        simp only [hr] at h
        exact Option.noConfusion h
      | some cv =>
        obtain ⟨c, v1⟩ := cv
        simp only [hr] at h
        have hv1 : v1 = v := hres i _ v c v1 hi hr
        cases hrest : resolve_children res crafts rest v1 with
        | none =>
          simp only [hrest] at h
          exact Option.noConfusion h
        | some csv =>
          obtain ⟨cs1, v2⟩ := csv
          simp only [hrest, Option.some.injEq, Prod.mk.injEq] at h
          rw [← h.2, ih crafts v1 cs1 v2 hrest, hv1]

/-- Resolving an item removes exactly the item it inserted: the returned visiting set
is the input set with the item erased (hence unchanged whenever the item was
not already being visited). -/
theorem resolve_visiting {cat : Catalog} :
    ∀ (fuel : Nat) (item_id : String) (amount : Nat) (v : Finset String)
      (n : ProductionNode) (v' : Finset String),
      resolve cat fuel item_id amount v = some (n, v') → v' = v.erase item_id := by
  intro fuel
  induction fuel with
  | zero =>
    intro item a v n v' h
    simp only [resolve] at h
    exact Option.noConfusion h
  | succ f ih =>
    intro item a v n v' h
    simp only [resolve] at h
    cases hsel : select_best_recipe cat item (insert item v) with
    | none =>
      simp only [hsel, Option.some.injEq, Prod.mk.injEq] at h
      rw [← h.2, Finset.erase_insert_eq_erase]
    | some r =>
      simp only [hsel] at h
      cases hch : resolve_children (resolve cat f)
          (calculate r (cat.machines.lookup r.produced_by) a item).required_crafts
          r.inputs (insert item v) with
      | none =>
        simp only [hch] at h
        exact Option.noConfusion h
      | some csv =>
        obtain ⟨cs, v2⟩ := csv
        simp only [hch, Option.some.injEq, Prod.mk.injEq] at h
        have hv2 : v2 = insert item v :=
          resolve_children_visiting
            (fun i a' v'' n'' v''' hi hr => by
              rw [ih i a' v'' n'' v''' hr]
              exact Finset.erase_eq_of_not_mem hi)
            _ _ _ _ _ hch
        rw [← h.2, hv2, Finset.erase_insert_eq_erase]

/-- The node returned by `resolve` carries the requested item id. -/
theorem resolve_item {cat : Catalog} {fuel : Nat} {item_id : String} {amount : Nat}
    {v : Finset String} {n : ProductionNode} {v' : Finset String}
    (h : resolve cat fuel item_id amount v = some (n, v')) : node_item n = item_id := by
  cases fuel with
  | zero =>
    simp only [resolve] at h
    exact Option.noConfusion h
  | succ f =>
    simp only [resolve] at h
    cases hsel : select_best_recipe cat item_id (insert item_id v) with
    | none =>
      simp only [hsel, Option.some.injEq, Prod.mk.injEq] at h
      rw [← h.1, node_item]
    | some r =>
      simp only [hsel] at h
      cases hch : resolve_children (resolve cat f)
          (calculate r (cat.machines.lookup r.produced_by) amount item_id).required_crafts
          r.inputs (insert item_id v) with
      | none =>
        simp only [hch] at h
        exact Option.noConfusion h
      | some csv =>
        obtain ⟨cs, v2⟩ := csv
        simp only [hch, Option.some.injEq, Prod.mk.injEq] at h
        rw [← h.1, node_item]

/-- With the inductive hypothesis for smaller fuel, traversing a child list
succeeds as long as every input id lies in the universe and the remaining
fuel dominates the number of unvisited universe items. -/
theorem resolve_children_isSome {cat : Catalog} {f : Nat}
    (ihf : ∀ (item_id : String) (a : Nat) (v : Finset String),
      (input_universe cat \ insert item_id v).card < f →
      (resolve cat f item_id a v).isSome) :
    ∀ (l : List (String × Nat)) (crafts : ℚ) (v : Finset String),
      (∀ p ∈ l, p.1 ∈ input_universe cat) →
      (input_universe cat \ v).card ≤ f →
      (resolve_children (resolve cat f) crafts l v).isSome := by
  intro l
  induction l with
  | nil =>
    intro crafts v _ _
    simp [resolve_children]
  | cons p rest ih =>
    intro crafts v hU hcard
    obtain ⟨i, q⟩ := p
    simp only [resolve_children]
    by_cases hi : i ∈ v
    · rw [if_pos hi]
      exact ih crafts v (fun p hp => hU p (List.mem_cons_of_mem _ hp)) hcard
    · rw [if_neg hi]
      have hiU : i ∈ input_universe cat := hU (i, q) (List.mem_cons_self _ _)
      have hlt : (input_universe cat \ insert i v).card < f := by
        rw [Finset.sdiff_insert]
        have hmem : i ∈ input_universe cat \ v := Finset.mem_sdiff.mpr ⟨hiU, hi⟩
        have h1 := Finset.card_erase_lt_of_mem hmem
        omega
      have h1 := ihf i (child_amount q crafts) v hlt
      rw [Option.isSome_iff_exists] at h1
      obtain ⟨⟨c, v1⟩, hr⟩ := h1
      have hv1 : v1 = v := by
        rw [resolve_visiting f i (child_amount q crafts) v c v1 hr]
        exact Finset.erase_eq_of_not_mem hi
      simp only [hr, hv1]
      have h2 := ih crafts v (fun p hp => hU p (List.mem_cons_of_mem _ hp)) hcard
      rw [Option.isSome_iff_exists] at h2
      obtain ⟨⟨cs, v2⟩, hrest⟩ := h2
      simp only [hrest]
      rfl

/-- Termination of the Rust recursion: fuel exceeding the number of universe
items not yet being visited always suffices. -/
theorem resolve_isSome {cat : Catalog} :
    ∀ (fuel : Nat) (item_id : String) (amount : Nat) (v : Finset String),
      (input_universe cat \ insert item_id v).card < fuel →
      (resolve cat fuel item_id amount v).isSome := by
  intro fuel
  induction fuel with
  | zero =>
    intro item a v h
    exact absurd h (Nat.not_lt_zero _)
  | succ f ih =>
    intro item a v h
    simp only [resolve]
    cases hsel : select_best_recipe cat item (insert item v) with
    | none => simp [hsel]
    | some r =>
      simp only [hsel]
      obtain ⟨k, hk⟩ := select_best_recipe_mem hsel
      have hU : ∀ p ∈ r.inputs, p.1 ∈ input_universe cat :=
        fun p hp => input_universe_mem hk hp
      have hch := resolve_children_isSome ih r.inputs
        (calculate r (cat.machines.lookup r.produced_by) a item).required_crafts
        (insert item v) hU (by omega)
      rw [Option.isSome_iff_exists] at hch
      obtain ⟨⟨cs, v2⟩, hch⟩ := hch
      simp only [hch]
      rfl

/-- Every child produced by the traversal of a child list has an item id that
was not in the visiting set handed to the traversal. -/
theorem resolve_children_items {cat : Catalog} {f : Nat} :
    ∀ (l : List (String × Nat)) (crafts : ℚ) (v : Finset String)
      (cs : List ProductionNode) (v' : Finset String),
      resolve_children (resolve cat f) crafts l v = some (cs, v') →
      ∀ c ∈ cs, node_item c ∉ v := by
  intro l
  induction l with
  | nil =>
    intro crafts v cs v' h
    simp only [resolve_children, Option.some.injEq, Prod.mk.injEq] at h
    rw [← h.1]
    intro c hc
    cases hc
  | cons p rest ih =>
    intro crafts v cs v' h
    obtain ⟨i, q⟩ := p
    simp only [resolve_children] at h
    by_cases hi : i ∈ v
    · rw [if_pos hi] at h
      exact ih crafts v cs v' h
    · rw [if_neg hi] at h
      cases hr : resolve cat f i (child_amount q crafts) v with
      | none =>
        simp only [hr] at h
        exact Option.noConfusion h
      | some cv =>
        obtain ⟨c1, v1⟩ := cv
        simp only [hr] at h
        have hv1 : v1 = v := by
          rw [resolve_visiting f i (child_amount q crafts) v c1 v1 hr]
          exact Finset.erase_eq_of_not_mem hi
        cases hrest : resolve_children (resolve cat f) crafts rest v1 with
        | none =>
          simp only [hrest] at h
          exact Option.noConfusion h
        | some csv =>
          obtain ⟨cs1, v2⟩ := csv
          simp only [hrest, Option.some.injEq, Prod.mk.injEq] at h
          rw [← h.1]
          intro c hc
          rcases List.mem_cons.mp hc with hc | hc
          · rw [hc, resolve_item hr]
            exact hi
          · have := ih crafts v1 cs1 v2 hrest c hc
            rw [hv1] at this
            exact this

/-! ## C5 and C6: the resolver's degraded path and its termination -/

/-- C5.  When no recipe is registered for the item (the output index has
no entry for it) and the item is not already being visited, `resolve` returns
exactly `Unresolved {item_id, amount}` — never an error — and the returned
visiting set equals the one passed in: the item inserted on entry is removed
again before returning. -/
theorem c5_no_recipe_unresolved (cat : Catalog) (item_id : String) (amount : Nat)
    (visiting : Finset String) (fuel : Nat)
    (hnv : item_id ∉ visiting)
    (hno : cat.recipes_by_output.lookup item_id = none) :
    resolve cat (fuel + 1) item_id amount visiting
      = some (.Unresolved item_id amount, visiting) := by
  have hsel : select_best_recipe cat item_id (insert item_id visiting) = none := by
    unfold select_best_recipe
    rw [hno]
    rfl
  simp only [resolve, hsel]
  rw [Finset.erase_insert hnv]

/-- C5, witness: the empty catalog, an unvisited item. -/
theorem c5_witness :
    resolve ⟨[], [], []⟩ 1 "x" 5 ∅ = some (.Unresolved "x" 5, ∅) :=
  c5_no_recipe_unresolved ⟨[], [], []⟩ "x" 5 ∅ 0 (Finset.not_mem_empty _) rfl

/-- C6.  `resolve` terminates on every finite catalog, cyclic recipe
graphs included: any fuel exceeding the number of not-yet-visited items of the
catalog's input universe yields a result (this bound is exactly the
termination measure of the Rust recursion, which has no fuel), and every
child of the resulting node has an item id that was not in the visiting set —
an input already being visited is omitted from the child list rather than
turned into an error or a special node. -/
theorem c6_resolve_terminates (cat : Catalog) (item_id : String) (amount : Nat)
    (visiting : Finset String) (fuel : Nat)
    (hfuel : (input_universe cat \ insert item_id visiting).card < fuel) :
    ∃ n v', resolve cat fuel item_id amount visiting = some (n, v')
      ∧ ∀ c ∈ node_children n, node_item c ∉ insert item_id visiting := by
  have hs := resolve_isSome fuel item_id amount visiting hfuel
  rw [Option.isSome_iff_exists] at hs
  obtain ⟨⟨n, v'⟩, hr⟩ := hs
  refine ⟨n, v', hr, ?_⟩
  cases fuel with
  | zero =>
    simp only [resolve] at hr
    exact Option.noConfusion hr
  | succ f =>
    simp only [resolve] at hr
    cases hsel : select_best_recipe cat item_id (insert item_id visiting) with
    | none =>
      simp only [hsel, Option.some.injEq, Prod.mk.injEq] at hr
      rw [← hr.1, node_children]
      intro c hc
      cases hc
    | some r =>
      simp only [hsel] at hr
      cases hch : resolve_children (resolve cat f)
          (calculate r (cat.machines.lookup r.produced_by) amount item_id).required_crafts
          r.inputs (insert item_id visiting) with
      | none =>
        simp only [hch] at hr
        exact Option.noConfusion hr
      | some csv =>
        obtain ⟨cs, v2⟩ := csv
        simp only [hch, Option.some.injEq, Prod.mk.injEq] at hr
        rw [← hr.1, node_children]
        exact resolve_children_items r.inputs _ _ cs v2 hch

/-- C6, witness: the spec's two-recipe cycle (A needs B, B needs A);
fuel 2 exceeds the one unvisited universe item, resolution of A succeeds. -/
theorem c6_witness :
    ∃ n v',
      resolve ⟨[("kA", ⟨"A", "m", 60, [("B", 1)], [("A", 1)], false⟩),
                ("kB", ⟨"B", "m", 60, [("A", 1)], [("B", 1)], false⟩)],
               [("A", ["kA"]), ("B", ["kB"])],
               [("m", ⟨"m", 1, 5⟩)]⟩ 2 "A" 1 ∅ = some (n, v')
      ∧ ∀ c ∈ node_children n, node_item c ∉ insert "A" (∅ : Finset String) :=
  c6_resolve_terminates
    ⟨[("kA", ⟨"A", "m", 60, [("B", 1)], [("A", 1)], false⟩),
      ("kB", ⟨"B", "m", 60, [("A", 1)], [("B", 1)], false⟩)],
     [("A", ["kA"]), ("B", ["kB"])],
     [("m", ⟨"m", 1, 5⟩)]⟩ "A" 1 ∅ 2 (by decide)

/-! ## C10: machine ids of resolved nodes -/

/-- Membership in the node collection of a child list decomposes through a
child. -/
theorem mem_all_nodes_list {x : ProductionNode} :
    ∀ {l : List ProductionNode}, x ∈ all_nodes_list l ↔ ∃ c ∈ l, x ∈ all_nodes c := by
  intro l
  induction l with
  | nil => simp [all_nodes_list]
  | cons c cs ih =>
    rw [all_nodes_list, List.mem_append, ih]
    constructor
    · rintro (hx | ⟨c', hc', hx⟩)
      · exact ⟨c, List.mem_cons_self _ _, hx⟩
      · exact ⟨c', List.mem_cons_of_mem _ hc', hx⟩
    · rintro ⟨c', hc', hx⟩
      rcases List.mem_cons.mp hc' with h | h
      · exact Or.inl (h ▸ hx)
      · exact Or.inr ⟨c', h, hx⟩

mutual

/-- For a non-empty key `k`, the entry of `total_machines` at `k` is the sum
of `machine_count` over the nodes of the tree whose `machine_id` is `k`. -/
theorem total_machines_count_eq (k : String) (hk : k ≠ "") :
    ∀ (n : ProductionNode),
      total_machines_count k n
        = ((all_nodes n).map
            (fun x => if node_machine_id x = some k then node_machine_count x else 0)).sum
  | .Resolved item_id machine_id amount mc pu ld inputs src => by
    rw [total_machines_count, all_nodes, List.map_cons, List.sum_cons,
      total_machines_count_list_eq k hk inputs]
    congr 1
    simp only [node_machine_id, node_machine_count, Option.some.injEq]
    by_cases hmk : machine_id = k
    · rw [if_pos ⟨hmk ▸ hk, hmk⟩, if_pos hmk]
    · rw [if_neg (fun hcon => hmk hcon.2), if_neg hmk]
  | .Unresolved item_id amount => by
    rw [total_machines_count, all_nodes]
    simp [node_machine_id]

/-- List version of `total_machines_count_eq`. -/
theorem total_machines_count_list_eq (k : String) (hk : k ≠ "") :
    ∀ (l : List ProductionNode),
      total_machines_count_list k l
        = ((all_nodes_list l).map
            (fun x => if node_machine_id x = some k then node_machine_count x else 0)).sum
  | [] => by simp [total_machines_count_list, all_nodes_list]
  | c :: cs => by
    rw [total_machines_count_list, all_nodes_list, List.map_append, List.sum_append,
      total_machines_count_eq k hk c, total_machines_count_list_eq k hk cs]

end

/-- The machine-id invariant carried by every `Resolved` node that `resolve`
builds: either the recipe's machine was found in the catalog and the node
carries that machine's id, or the node carries the `"missing_machine"`
sentinel — and then its `power_usage` is `0`, since a missing machine means
power 0 in `calculate`. -/
def machine_id_ok (cat : Catalog) (x : ProductionNode) : Prop :=
  (node_machine_id x = some "missing_machine" ∧ resolved_power x = 0)
  ∨ ∃ k m, cat.machines.lookup k = some m ∧ node_machine_id x = some m.id

/-- The child-list traversal preserves the machine-id invariant, given that
the resolver itself establishes it. -/
theorem resolve_children_machines {cat : Catalog} {f : Nat}
    (ihf : ∀ (item_id : String) (a : Nat) (v : Finset String)
      (n : ProductionNode) (v' : Finset String),
      resolve cat f item_id a v = some (n, v') →
      ∀ x ∈ all_nodes n, is_resolved x = true → machine_id_ok cat x) :
    ∀ (l : List (String × Nat)) (crafts : ℚ) (v : Finset String)
      (cs : List ProductionNode) (v' : Finset String),
      resolve_children (resolve cat f) crafts l v = some (cs, v') →
      ∀ c ∈ cs, ∀ x ∈ all_nodes c, is_resolved x = true → machine_id_ok cat x := by
  intro l
  induction l with
  | nil =>
    intro crafts v cs v' h
    simp only [resolve_children, Option.some.injEq, Prod.mk.injEq] at h
    rw [← h.1]
    intro c hc
    cases hc
  | cons p rest ih =>
    intro crafts v cs v' h
    obtain ⟨i, q⟩ := p
    simp only [resolve_children] at h
    by_cases hi : i ∈ v
    · rw [if_pos hi] at h
      exact ih crafts v cs v' h
    · rw [if_neg hi] at h
      cases hr : resolve cat f i (child_amount q crafts) v with
      | none =>
        simp only [hr] at h
        exact Option.noConfusion h
      | some cv =>
        obtain ⟨c1, v1⟩ := cv
        simp only [hr] at h
        cases hrest : resolve_children (resolve cat f) crafts rest v1 with
        | none =>
          simp only [hrest] at h
          exact Option.noConfusion h
        | some csv =>
          obtain ⟨cs1, v2⟩ := csv
          simp only [hrest, Option.some.injEq, Prod.mk.injEq] at h
          rw [← h.1]
          intro c hc
          rcases List.mem_cons.mp hc with hc | hc
          · exact hc ▸ ihf i _ v c1 v1 hr
          · exact ih crafts v1 cs1 v2 hrest c hc

/-- Every `Resolved` node anywhere in a tree built by `resolve` satisfies the
machine-id invariant. -/
theorem resolve_machines {cat : Catalog} :
    ∀ (fuel : Nat) (item_id : String) (amount : Nat) (v : Finset String)
      (n : ProductionNode) (v' : Finset String),
      resolve cat fuel item_id amount v = some (n, v') →
      ∀ x ∈ all_nodes n, is_resolved x = true → machine_id_ok cat x := by
  intro fuel
  induction fuel with
  | zero =>
    intro item a v n v' h
    simp only [resolve] at h
    exact Option.noConfusion h
  | succ f ih =>
    intro item a v n v' h
    simp only [resolve] at h
    cases hsel : select_best_recipe cat item (insert item v) with
    | none =>
      simp only [hsel, Option.some.injEq, Prod.mk.injEq] at h
      rw [← h.1]
      intro x hx hres
      rw [all_nodes] at hx
      rcases List.mem_singleton.mp hx with rfl
      rw [is_resolved] at hres
      exact Bool.noConfusion hres
    | some r =>
      simp only [hsel] at h
      cases hch : resolve_children (resolve cat f)
          (calculate r (cat.machines.lookup r.produced_by) a item).required_crafts
          r.inputs (insert item v) with
      | none =>
        simp only [hch] at h
        exact Option.noConfusion h
      | some csv =>
        obtain ⟨cs, v2⟩ := csv
        simp only [hch, Option.some.injEq, Prod.mk.injEq] at h
        rw [← h.1]
        intro x hx hres
        rw [all_nodes] at hx
        rcases List.mem_cons.mp hx with rfl | hx
        · cases hm : cat.machines.lookup r.produced_by with
          | none =>
            left
            constructor
            · rw [node_machine_id]
              rfl
            · rw [resolved_power]
              simp [calculate]
          | some m =>
            right
            refine ⟨r.produced_by, m, hm, ?_⟩
            rw [node_machine_id]
            rfl
        · obtain ⟨c, hc, hx⟩ := mem_all_nodes_list.mp hx
          exact resolve_children_machines ih r.inputs _ _ cs v2 hch c hc x hx hres

/-- C10.  For any tree built by `resolve`: (1) every `Resolved` node's
`machine_id` is either the id of the machine found for the recipe's
`produced_by` or the `"missing_machine"` sentinel, and in the sentinel case
the node's `power_usage` is 0 (manual steps draw no power); (2) if the
catalog's machines all have non-empty ids, every `Resolved` node has a
non-empty `machine_id`; (3) for any non-empty key — `"missing_machine"` in
particular — `total_machines` counts the `machine_count` of exactly the
`Resolved` nodes carrying that key, so manual steps are counted under
`"missing_machine"` rather than omitted. -/
theorem c10_machine_id (cat : Catalog) (fuel : Nat) (item_id : String) (amount : Nat)
    (visiting : Finset String) (t : ProductionNode) (v' : Finset String)
    (hres : resolve cat fuel item_id amount visiting = some (t, v')) :
    (∀ x ∈ all_nodes t, is_resolved x = true →
       (node_machine_id x = some "missing_machine" ∧ resolved_power x = 0)
       ∨ ∃ k m, cat.machines.lookup k = some m ∧ node_machine_id x = some m.id)
    ∧ ((∀ k m, cat.machines.lookup k = some m → m.id ≠ "") →
       ∀ x ∈ all_nodes t, is_resolved x = true → node_machine_id x ≠ some "")
    ∧ (∀ k, k ≠ "" →
       total_machines_count k t
         = ((all_nodes t).map
             (fun x => if node_machine_id x = some k then node_machine_count x else 0)).sum) := by
  refine ⟨resolve_machines fuel item_id amount visiting t v' hres, ?_, ?_⟩
  · intro hid x hx hrx hcon
    rcases resolve_machines fuel item_id amount visiting t v' hres x hx hrx with
      ⟨h1, -⟩ | ⟨k, m, hkm, h1⟩
    · rw [h1] at hcon
      injection hcon with hcon
      exact absurd hcon (by simp)
    · rw [h1] at hcon
      injection hcon with hcon
      exact hid k m hkm hcon
  · intro k hk
    exact total_machines_count_eq k hk t

/-- C10, witness: a catalog with no machine entry at all; the resolved
node carries the `"missing_machine"` sentinel and zero power. -/
theorem c10_witness :
    (node_machine_id (.Resolved "x" "missing_machine" 5 5 0 1 [] false)
        = some "missing_machine"
      ∧ resolved_power (.Resolved "x" "missing_machine" 5 5 0 1 [] false) = 0)
    ∨ ∃ k m,
        (⟨[("k", ⟨"x", "m", 60, [], [("x", 1)], false⟩)], [("x", ["k"])], []⟩ :
            Catalog).machines.lookup k = some m
        ∧ node_machine_id (.Resolved "x" "missing_machine" 5 5 0 1 [] false)
            = some m.id := by
  have hres :
      resolve (⟨[("k", ⟨"x", "m", 60, [], [("x", 1)], false⟩)], [("x", ["k"])], []⟩ :
          Catalog) 1 "x" 5 ∅
        = some (.Resolved "x" "missing_machine" 5 5 0 1 [] false, ∅) := by
    have hsel : select_best_recipe
        (⟨[("k", ⟨"x", "m", 60, [], [("x", 1)], false⟩)], [("x", ["k"])], []⟩ : Catalog)
        "x" (insert "x" ∅) = some ⟨"x", "m", 60, [], [("x", 1)], false⟩ := rfl
    have htn : (⌈(5 : ℚ)⌉).toNat = 5 := by
      rw [(by norm_num : (⌈(5 : ℚ)⌉ : ℤ) = 5)]
      rfl
    simp only [resolve, hsel, resolve_children]
    rw [Finset.erase_insert (Finset.not_mem_empty _)]
    simp only [calculate, PRODUCTION_TIME_WINDOW, List.lookup_cons_self, List.lookup_nil,
      Option.map_none', Option.getD_none, Option.getD_some, Option.some.injEq,
      Prod.mk.injEq]
    constructor
    · rw [show ((⟨"x", "m", 60, [], [("x", 1)], false⟩ : Recipe).time : ℚ) *
            (((5 : Nat) : ℚ) / (((1 : Nat) : ℚ))) / 60 = 5 by norm_num]
      rw [htn]
      norm_num [U32_MAX]
    · trivial
  exact (c10_machine_id
      ⟨[("k", ⟨"x", "m", 60, [], [("x", 1)], false⟩)], [("x", ["k"])], []⟩ 1 "x" 5 ∅
      (.Resolved "x" "missing_machine" 5 5 0 1 [] false) ∅ hres).1
    (.Resolved "x" "missing_machine" 5 5 0 1 [] false)
    (by rw [all_nodes]; exact List.mem_cons_self _ _) rfl

/-! ## C7: total power excluding sources -/

mutual

/-- Aggregate `total_power` is the sum of `power_usage` over every `Resolved` node of
the tree (`Unresolved` nodes contribute 0). -/
theorem total_power_eq_sum :
    ∀ (n : ProductionNode), total_power n = ((all_nodes n).map resolved_power).sum
  | .Resolved item_id machine_id amount mc pu ld inputs src => by
    rw [total_power, all_nodes, List.map_cons, List.sum_cons,
      total_power_list_eq_sum inputs, resolved_power]
  | .Unresolved item_id amount => by
    rw [total_power, all_nodes]
    simp [resolved_power]

/-- List version of `total_power_eq_sum`. -/
theorem total_power_list_eq_sum :
    ∀ (l : List ProductionNode),
      total_power_list l = ((all_nodes_list l).map resolved_power).sum
  | [] => by simp [total_power_list, all_nodes_list]
  | c :: cs => by
    rw [total_power_list, all_nodes_list, List.map_append, List.sum_append,
      total_power_eq_sum c, total_power_list_eq_sum cs]

end

/-- C7, counterexample.  A non-source root with a source-flagged child:
the claim's reading (source nodes contribute 0 anywhere in the tree) gives
`5`, but `total_power_exclude_source` tests `is_source` only at the root and
sums the children with plain `total_power`, giving `5 + 7 = 12`. -/
theorem c7_counterexample :
    total_power_exclude_source
        (.Resolved "a" "m" 1 1 5 1 [.Resolved "b" "m2" 1 1 7 1 [] true] false)
      ≠ ((all_nodes
            (.Resolved "a" "m" 1 1 5 1 [.Resolved "b" "m2" 1 1 7 1 [] true] false)).map
          non_source_power).sum := by
  simp [total_power_exclude_source, total_power_list, total_power, all_nodes,
    all_nodes_list, non_source_power]

/-- C7, amended.  `total_power_exclude_source` returns 0 when the root is
flagged `is_source` (excluding the whole tree), and otherwise the sum of
`power_usage` over *all* `Resolved` nodes of the tree — the `is_source` flags
of non-root nodes are not consulted (they are summed via `total_power`).
`Unresolved` nodes contribute 0 either way. -/
theorem c7_power_excluding_sources (n : ProductionNode) :
    total_power_exclude_source n
      = if root_is_source n then 0 else ((all_nodes n).map resolved_power).sum := by
  cases n with
  | Unresolved item_id amount =>
    rw [total_power_exclude_source, root_is_source, all_nodes]
    simp [resolved_power]
  | Resolved item_id machine_id amount mc pu ld inputs src =>
    rw [total_power_exclude_source, root_is_source]
    cases src with
    | true => simp
    | false =>
      simp only [Bool.false_eq_true, if_false]
      rw [all_nodes, List.map_cons, List.sum_cons, total_power_list_eq_sum inputs,
        resolved_power]

/-! ## C8: utilization -/

/-- The explicit child product agrees with `List.prod` over the mapped
children. -/
theorem total_utilization_prod_eq (l : List ProductionNode) :
    total_utilization_prod l = (l.map total_utilization).prod := by
  induction l with
  | nil => simp [total_utilization_prod]
  | cons c cs ih => simp [total_utilization_prod, ih]

/-- C8.  `utilization` is an integer percentage in `[0, 100]`: the rounded
and clamped value of 100 times the recursive multiplicative efficiency
`total_utilization`, which collapses to `load` on a leaf `Resolved` node and
is `load` times the product of the children's efficiencies on a non-leaf
`Resolved` node.  (The model is a pure function, matching the claim that the
computation is read-only.) -/
theorem c8_utilization (n : ProductionNode) :
    utilization n ≤ 100
    ∧ (utilization n : ℤ) = min 100 (max 0 (round (total_utilization n * 100)))
    ∧ (∀ (item_id machine_id : String) (amount mc pu : Nat) (ld : ℚ) (src : Bool),
        total_utilization (.Resolved item_id machine_id amount mc pu ld [] src) = ld)
    ∧ (∀ (item_id machine_id : String) (amount mc pu : Nat) (ld : ℚ) (src : Bool)
         (c : ProductionNode) (cs : List ProductionNode),
        total_utilization (.Resolved item_id machine_id amount mc pu ld (c :: cs) src)
          = ld * ((c :: cs).map total_utilization).prod) := by
  refine ⟨?_, ?_, ?_, ?_⟩
  · rw [utilization]
    have h1 : min 100 (max 0 (round (total_utilization n * 100))) ≤ (100 : ℤ) :=
      min_le_left _ _
    omega
  · rw [utilization]
    rw [Int.toNat_of_nonneg (le_min (by norm_num) (le_max_left 0 _))]
  · intro item_id machine_id amount mc pu ld src
    rw [total_utilization]
    simp
  · intro item_id machine_id amount mc pu ld src c cs
    rw [total_utilization, total_utilization_prod_eq]
    simp

/-! ## C9: recipe unique-key construction -/

/-- The stable sort by key of `compute_unique_id`, on a list with no
duplicate keys, is sorted strictly by key. -/
theorem mergeSort_sorted_strict (l : List (String × Nat))
    (hnd : (l.map Prod.fst).Nodup) :
    List.Sorted (fun p q : String × Nat => p.1 < q.1)
      (l.mergeSort (fun a b => a.1 ≤ b.1)) := by
  have hs := @List.sorted_mergeSort (String × Nat)
    (fun a b => decide (a.1 ≤ b.1))
    (fun a b c hab hbc => by
      simp only [decide_eq_true_eq] at *
      exact le_trans hab hbc)
    (fun a b => by
      simp only [Bool.or_eq_true, decide_eq_true_eq]
      exact le_total a.1 b.1)
    l
  have hperm := List.mergeSort_perm l (fun a b : String × Nat => decide (a.1 ≤ b.1))
  have hnd' : ((l.mergeSort (fun a b : String × Nat => decide (a.1 ≤ b.1))).map
      Prod.fst).Nodup :=
    ((hperm.map Prod.fst).nodup_iff).mpr hnd
  have hp2 : List.Pairwise (fun p q : String × Nat => p.1 ≠ q.1)
      (l.mergeSort (fun a b : String × Nat => decide (a.1 ≤ b.1))) :=
    List.pairwise_map.mp hnd'
  exact (hs.and hp2).imp fun h => lt_of_le_of_ne (by simpa using h.1) h.2

/-- C9.  `compute_unique_id` is invariant under permuting the iteration
order of the `inputs` map: recipes with equal `id`, equal `produced_by`, and
`inputs` lists that are permutations of one another (with no duplicate keys,
as in a `HashMap`) produce the identical key string. -/
theorem c9_unique_id_perm (r1 r2 : Recipe)
    (hid : r1.id = r2.id) (hby : r1.produced_by = r2.produced_by)
    (hperm : r1.inputs.Perm r2.inputs)
    (hnd : (r1.inputs.map Prod.fst).Nodup) :
    compute_unique_id r1 = compute_unique_id r2 := by
  have hnd2 : (r2.inputs.map Prod.fst).Nodup :=
    ((hperm.map Prod.fst).nodup_iff).mp hnd
  haveI : IsAntisymm (String × Nat) (fun p q => p.1 < q.1) :=
    ⟨fun p q h1 h2 => absurd h2 (asymm h1)⟩
  have hsorteq : r1.inputs.mergeSort (fun a b => a.1 ≤ b.1)
      = r2.inputs.mergeSort (fun a b => a.1 ≤ b.1) := by
    apply List.eq_of_perm_of_sorted (r := fun p q : String × Nat => p.1 < q.1)
    · exact ((List.mergeSort_perm r1.inputs _).trans hperm).trans
        (List.mergeSort_perm r2.inputs _).symm
    · exact mergeSort_sorted_strict r1.inputs hnd
    · exact mergeSort_sorted_strict r2.inputs hnd2
  rw [compute_unique_id, compute_unique_id, hid, hby, hsorteq]

/-- C9, witness: the `test_compute_unique_id_deterministic` scenario from
the Rust tests, with the two input orders. -/
theorem c9_witness :
    compute_unique_id ⟨"amethyst_component", "gearing_unit", 10,
        [("origocrust", 5), ("amethyst_fiber", 5)], [], false⟩
      = compute_unique_id ⟨"amethyst_component", "gearing_unit", 10,
        [("amethyst_fiber", 5), ("origocrust", 5)], [], false⟩ :=
  c9_unique_id_perm _ _ rfl rfl
    (List.Perm.swap ("amethyst_fiber", 5) ("origocrust", 5) [])
    (by decide)

end Endfield
